import Mathlib

/-!
Verification of the SkillForage-X analysis pipeline and cache layer.

Shallow embedding conventions:
* JavaScript strings are modelled as lists of character codes (`JStr`),
  so that character-class operations (regexes, case folding) are plain
  natural-number arithmetic.  Strings that are only compared for equality
  (user ids, labels, category names) are modelled as Lean `String`.
* JavaScript numbers are modelled as rationals (`ℚ`); array lengths and
  random draws as naturals.
* A possibly-missing object field is an `Option`.
* A Redis store is modelled as the typed content of the relevant key
  (`Option` = present/absent) or, for the raw string store of server.js,
  as an association list from key to value.
* `async` functions that can reject are modelled as `Except String`
  values; collaborator calls whose outcome the code branches on are
  passed in as explicit parameters.
-/

namespace SkillForage

/-- Character codes of a JavaScript string (UTF-16 code units; the test
data stays in the BMP so one code unit = one code point). -/
abbrev JStr := List Nat

/-- Convert a Lean string literal to its code list, for writing concrete
JavaScript string constants. -/
def toJ (s : String) : JStr := s.toList.map Char.toNat

/-- JavaScript regex class \w : [A-Za-z0-9_]. -/
def isWordCode (n : Nat) : Bool :=
  decide ((48 ≤ n ∧ n ≤ 57) ∨ (65 ≤ n ∧ n ≤ 90) ∨ (97 ≤ n ∧ n ≤ 122) ∨ n = 95)

/-- JavaScript regex class \s restricted to the code points that occur in
this code base: tab, LF, VT, FF, CR, space, NBSP. -/
def isSpaceCode (n : Nat) : Bool :=
  decide ((9 ≤ n ∧ n ≤ 13) ∨ n = 32 ∨ n = 160)

/-- ASCII decimal digit, JavaScript regex class \d. -/
def isDigitCode (n : Nat) : Bool := decide (48 ≤ n ∧ n ≤ 57)

/-- ASCII uppercase letter, regex class [A-Z]. -/
def isUpperCode (n : Nat) : Bool := decide (65 ≤ n ∧ n ≤ 90)

/-- ASCII letter, regex class [a-zA-Z]. -/
def isAlphaCode (n : Nat) : Bool :=
  decide ((65 ≤ n ∧ n ≤ 90) ∨ (97 ≤ n ∧ n ≤ 122))

/-- ASCII case folding of one code unit, as performed by
String.prototype.toLowerCase on the characters used here. -/
def toLowerCode (n : Nat) : Nat := if 65 ≤ n ∧ n ≤ 90 then n + 32 else n

/-- String.prototype.toLowerCase. -/
def toLowerJ (s : JStr) : JStr := s.map toLowerCode

/-- Substring test, String.prototype.includes(needle). -/
def jsIncludes (hay needle : JStr) : Bool :=
  match hay with
  | [] => needle.isEmpty
  | _ :: rest => needle.isPrefixOf hay || jsIncludes rest needle

/-- Insertion-order deduplication, the effect of `[...new Set(xs)]` in
JavaScript: the first occurrence of each element is kept. -/
def dedupFirst {α : Type} [DecidableEq α] : List α → List α :=
  go []
where
  go (seen : List α) : List α → List α
    | [] => []
    | a :: l => if a ∈ seen then go seen l else a :: go (a :: seen) l

/-- String.prototype.trim modelled on code lists: drop whitespace from
both ends. -/
def trimJ (l : JStr) : JStr :=
  (((l.dropWhile isSpaceCode).reverse.dropWhile isSpaceCode)).reverse

/-- Math.round for the non-negative scores that occur here:
round half away from zero. -/
def jsRound (q : ℚ) : ℤ := ⌊q + 1 / 2⌋

/-! ## userDashboardCache.js : skill records and the skills cache

A skill record is a JavaScript object whose fields may be absent
(`Option`).  The skills cache for one user is the parsed content of the
Redis key `skills:userId`; `none` models an absent key.  The JSON
round-trip through `redisSet`/`redisGet` is the identity on the typed
value, so the store holds the record list directly. -/

structure SkillRecord where
  name : JStr
  level : Option ℚ
  targetLevel : Option ℚ
  category : Option String
  lastPracticed : Option String
  progress : Option ℚ
  deriving DecidableEq, Repr

/-- getSkillProgress(userId): read the skills cache entry; JSON.parse of
the stored string is the stored value. -/
def getSkillProgress (store : Option (List SkillRecord)) : Option (List SkillRecord) :=
  store

/-- The merge inside setSkillProgress(userId, skills): each incoming
record takes the progress and lastPracticed fields of the existing record
of the same name (JavaScript `find` returns the first match); an incoming
record with no name match is kept as-is. -/
def mergeSkills (existingSkills skills : List SkillRecord) : List SkillRecord :=
  skills.map fun newSkill =>
    match existingSkills.find? (fun s => s.name = newSkill.name) with
    | some existingSkill =>
        { newSkill with
            progress := existingSkill.progress
            lastPracticed := existingSkill.lastPracticed }
    | none => newSkill

/-- setSkillProgress(userId, skills): read the existing records
(`|| []` turns an absent entry into the empty list), merge, write the
merged set back.  The returned store is the new cache content. -/
def setSkillProgress (store : Option (List SkillRecord)) (skills : List SkillRecord) :
    Option (List SkillRecord) :=
  some (mergeSkills ((getSkillProgress store).getD []) skills)

/-- The per-record bump inside updateSkillProgress: Math.min(progress +
delta, 100) and a fresh lastPracticed stamp.  A record whose progress
field is absent would produce NaN in JavaScript; that case is modelled as
an absent result and is unreachable for the cache states written by this
module, which always set progress. -/
def bumpProgress (p : Option ℚ) (delta : ℚ) : Option ℚ :=
  match p with
  | some v => some (min (v + delta) 100)
  | none => none

/-- updateSkillProgress(userId, skillName, delta): read, bump the
matching records, persist through setSkillProgress, return the bumped
list.  Result: (new store content, returned list). -/
def updateSkillProgress (store : Option (List SkillRecord)) (skillName : JStr)
    (progressDelta : ℚ) (now : String) :
    Option (List SkillRecord) × List SkillRecord :=
  let skills := (getSkillProgress store).getD []
  let updatedSkills := skills.map fun skill =>
    if skill.name = skillName then
      { skill with
          progress := bumpProgress skill.progress progressDelta
          lastPracticed := some now }
    else skill
  (setSkillProgress store updatedSkills, updatedSkills)

/-! ## server.js : job-result cache keys

The raw Redis store of server.js is an association list from key string
to stored JSON string; lookup returns the first binding. -/

/-- Key written by the resume queue processor for a terminal job payload:
the template literal resume colon userId colon jobId. -/
def resumeWriteKey (userId jobId : String) : String :=
  "resume:" ++ userId ++ ":" ++ jobId

/-- The terminal-payload write performed by resumeQueue.process on both
the success and failure paths. -/
def processorWriteTerminal (store : List (String × String)) (userId jobId payload : String) :
    List (String × String) :=
  (resumeWriteKey userId jobId, payload) :: store

/-- GET /api/resume-analysis/:jobId — reads the key resume colon jobId
and answers 404 (modelled as none) when the key is absent. -/
def getResumeAnalysis (store : List (String × String)) (jobId : String) : Option String :=
  (store.find? (fun kv => kv.1 = "resume:" ++ jobId)).map (·.2)

/-! ## Concrete cache fixtures used by the C1 theorem -/

/-- A cached record for the skill go with accumulated progress 40. -/
def goRecord : SkillRecord :=
  { name := toJ "go", level := some 50, targetLevel := some 70,
    category := some "programming", lastPracticed := some "T0", progress := some 40 }

/-- The record updateSkillProgress returns for goRecord with delta 10 at
time T1. -/
def goRecordBumped : SkillRecord :=
  { goRecord with progress := some 50, lastPracticed := some "T1" }

/-! ## processResume.js : analyzer result types and the scorer -/

/-- Result of analyzeSentiment; allResults keeps the raw label/score
pairs of the classifier response. -/
structure Sentiment where
  label : String
  score : ℚ
  allResults : List (String × ℚ)
  deriving DecidableEq, Repr

/-- Result of calculateReadability. -/
structure Readability where
  sentenceCount : ℚ
  wordCount : ℚ
  avgSentenceLength : ℚ
  avgWordLength : ℚ
  fleschScore : ℚ
  fleschGradeLevel : ℚ
  difficultWords : ℚ
  deriving DecidableEq, Repr

/-- The five entity buckets produced by nerProcessor.js.  The
fallbackAnalysis literal of processResume.js omits the certifications
key; an absent key is modelled as the empty bucket. -/
structure EntityResult where
  skills : List JStr
  companies : List JStr
  titles : List JStr
  education : List JStr
  certifications : List JStr
  deriving DecidableEq, Repr

/-- The all-empty entity structure. -/
def emptyEntities : EntityResult :=
  { skills := [], companies := [], titles := [], education := [], certifications := [] }

/-- calculateScore(sentiment, entities, readability, keywordCount),
transcribed statement by statement from processResume.js. -/
def calculateScore (sentiment : Sentiment) (entities : EntityResult)
    (readability : Readability) (keywordCount : Nat) : ℚ :=
  let score : ℚ := 70
  let score := if sentiment.label = "joy" ∧ sentiment.score > 7 / 10 then score + 10 else score
  let score := if readability.fleschScore > 60 then score + 5 else score
  let score := if readability.avgSentenceLength < 20 then score + 5 else score
  let score := score + min ((entities.skills.length : ℚ) * 2) 20
  let score := score + min ((entities.companies.length : ℚ) * 1) 10
  let score := score + min ((keywordCount : ℚ) * (1 / 2)) 10
  min (max score 0) 100

/-- The scoring formula as the spec states it, written as one expression:
base 70, +10 for the positive sentiment class (joy) above confidence 0.7,
+5 for flesch above 60, +5 for average sentence length below 20, plus
min(2 times skills, 20), plus min(1 times companies, 10), plus
min(0.5 times keywords, 10), clamped to the interval from 0 to 100. -/
def specScoreFormula (sentiment : Sentiment) (entities : EntityResult)
    (readability : Readability) (keywordCount : Nat) : ℚ :=
  min (max (70
    + (if sentiment.label = "joy" ∧ sentiment.score > 7 / 10 then 10 else 0)
    + (if readability.fleschScore > 60 then 5 else 0)
    + (if readability.avgSentenceLength < 20 then 5 else 0)
    + min (2 * (entities.skills.length : ℚ)) 20
    + min (1 * (entities.companies.length : ℚ)) 10
    + min ((1 / 2) * (keywordCount : ℚ)) 10) 0) 100

/-! ## processResume.js : skill assessment -/

/-- The category keyword tables of getSkillCategory, in object insertion
order. -/
def skillCategories : List (String × List String) :=
  [("programming", ["javascript", "python", "java", "c++", "typescript", "go", "rust"]),
   ("frontend", ["react", "angular", "vue", "html", "css", "sass"]),
   ("backend", ["node", "express", "django", "flask", "spring", "laravel"]),
   ("database", ["mysql", "postgresql", "mongodb", "redis", "sqlite"]),
   ("devops", ["docker", "kubernetes", "aws", "azure", "gcp", "terraform"]),
   ("soft", ["communication", "leadership", "teamwork", "problem solving"])]

/-- getSkillCategory(skillName): first category whose keyword list has a
member contained in the lowercased skill name, else other. -/
def getSkillCategory (skillName : JStr) : String :=
  let lowerSkill := toLowerJ skillName
  match skillCategories.find? (fun kv => kv.2.any (fun s => jsIncludes lowerSkill (toJ s))) with
  | some kv => kv.1
  | none => "other"

/-- calculateSkillLevel(skillName): min(min(draw + 50, 90) + length mod
20, 100), where draw stands for Math.floor(Math.random() times 30) and is
passed in so that the function is total over every possible draw. -/
def calculateSkillLevel (draw : Nat) (skillName : JStr) : Nat :=
  let baseLevel := min (draw % 30 + 50) 90
  let bonus := skillName.length % 20
  min (baseLevel + bonus) 100

/-- assessSkills(skills): one record per extracted skill name, with the
random draw for element i supplied by drawFor i and the ISO timestamp by
now. -/
def assessSkills (drawFor : Nat → Nat) (now : String) (skills : List JStr) :
    List SkillRecord :=
  (skills.enum).map fun p =>
    let level := calculateSkillLevel (drawFor p.1) p.2
    { name := p.2
      level := some (level : ℚ)
      targetLevel := if level < 80 then some ((level : ℚ) + 20) else some 100
      category := some (getSkillCategory p.2)
      lastPracticed := some now
      progress := some 0 }

/-! ## fetchDevBlogs (src/unnamed/part_000) : content ranking -/

/-- A prioritized skill as built inside fetchDevBlogs: lowercased name
and gap between target and current level. -/
structure PrioSkill where
  name : JStr
  gap : ℚ
  deriving DecidableEq, Repr

/-- The article fields calculateRelevance reads: tag, publication instant
in epoch milliseconds, reading time in minutes. -/
structure Article where
  tag : JStr
  publishedAt : ℚ
  readingTime : ℚ
  deriving DecidableEq, Repr

/-- calculateRelevance(skill, article), with the clock value Date.now()
made explicit.  The tag comparison lowercases both sides. -/
def calculateRelevance (nowMs : ℚ) (skill : PrioSkill) (article : Article) : ℚ :=
  let relevance := skill.gap / 100
  let relevance :=
    if toLowerJ article.tag = toLowerJ skill.name then relevance + 3 / 10 else relevance
  let daysOld := (nowMs - article.publishedAt) / 86400000
  let relevance := if daysOld < 7 then relevance + 2 / 10 else relevance
  let relevance :=
    if 5 ≤ article.readingTime ∧ article.readingTime ≤ 15 then relevance + 1 / 10 else relevance
  min relevance 1

/-- The relevance formula as the claim words it: gap/100, +0.3 when the
tag exactly matches the skill name (string equality), +0.2 when published
within the last 7 days, +0.1 when reading time is within 5 to 15 minutes,
capped at 1. -/
def specRelevanceExact (nowMs : ℚ) (skill : PrioSkill) (article : Article) : ℚ :=
  min (skill.gap / 100
    + (if article.tag = skill.name then 3 / 10 else 0)
    + (if (nowMs - article.publishedAt) / 86400000 < 7 then 2 / 10 else 0)
    + (if 5 ≤ article.readingTime ∧ article.readingTime ≤ 15 then 1 / 10 else 0)) 1

/-- The relevance formula with the tag match amended to be
case-insensitive, which is what the code computes. -/
def specRelevanceCI (nowMs : ℚ) (skill : PrioSkill) (article : Article) : ℚ :=
  min (skill.gap / 100
    + (if toLowerJ article.tag = toLowerJ skill.name then 3 / 10 else 0)
    + (if (nowMs - article.publishedAt) / 86400000 < 7 then 2 / 10 else 0)
    + (if 5 ≤ article.readingTime ∧ article.readingTime ≤ 15 then 1 / 10 else 0)) 1

/-- The gap-50 go skill of the ranking example. -/
def goPrioSkill : PrioSkill := { name := toJ "go", gap := 50 }

/-- Ranking example article one: tagged go, published at the current
instant, reading time 10 minutes. -/
def goArticleToday : Article :=
  { tag := toJ "go", publishedAt := 1000000000000, readingTime := 10 }

/-- Ranking example article two: tagged python, published a year
(365 days) earlier, reading time 10 minutes. -/
def pythonArticleYearOld : Article :=
  { tag := toJ "python", publishedAt := 1000000000000 - 31536000000, readingTime := 10 }

/-- Counterexample article for the exact-match reading of the tag rule:
tagged capitalized Go, published long before the 7-day window, reading
time outside 5 to 15. -/
def goArticleUpper : Article :=
  { tag := toJ "Go", publishedAt := 0, readingTime := 20 }

/-! ## processResume.js : keyword extraction

The natural WordTokenizer splits the text on runs of non-word
characters; the fuel argument of the tokenizer is the input length,
which is always sufficient because each step consumes at least one
character. -/

/-- Tokenizer worker: produce the maximal word-character runs of the
input, given enough fuel. -/
def tokenizeAux : Nat → JStr → List JStr
  | 0, _ => []
  | _, [] => []
  | fuel + 1, c :: rest =>
    if isWordCode c then
      (c :: rest.takeWhile isWordCode) :: tokenizeAux fuel (rest.dropWhile isWordCode)
    else tokenizeAux fuel rest

/-- Word tokenization of a JavaScript string. -/
def tokenizeJ (l : JStr) : List JStr := tokenizeAux l.length l

/-- The filtered word list of extractKeywords: tokens of the lowercased
text that are longer than 3, are not stop-words, and contain no digit. -/
def filteredTokens (stopwords : List JStr) (text : JStr) : List JStr :=
  (tokenizeJ (toLowerJ text)).filter fun word =>
    decide (3 < word.length) && !(stopwords.contains word) && !(word.any isDigitCode)

/-- A value of the bare-object frequency table wordFreq.  The table is a
plain JavaScript object, so a lookup that finds no own property falls
through to Object.prototype.  The only prototype keys a token can spell
are constructor and proto-underscore (tokens are lowercase word
characters, and every other prototype key contains an uppercase
letter).  For the token constructor the first bump computes
inherited-function || 0, which is the truthy Object constructor, and
adding 1 to a function produces a string: the host-defined stringified
function with a digit one appended.  corrupt n is that string with n
appended ones; it is never numeric. -/
inductive JsCount where
  | num : Nat → JsCount
  | corrupt : Nat → JsCount
  deriving DecidableEq, Repr

/-- Adding the number 1 to a stored count: numeric counts increment,
string counts concatenate another digit one. -/
def jsAddOne : JsCount → JsCount
  | JsCount.num n => JsCount.num (n + 1)
  | JsCount.corrupt n => JsCount.corrupt (n + 1)

/-- One step of the forEach loop: wordFreq[word] = (wordFreq[word] || 0)
plus 1 on the bare object.  The table is the list of own properties in
insertion order (JavaScript objects preserve string-key insertion
order).  Writing the proto-underscore key invokes the inherited accessor,
which silently ignores a primitive value, so no own property appears;
reading an absent constructor key yields the inherited constructor
function, so its first stored count is already the corrupted string. -/
def jsFreqBump (table : List (JStr × JsCount)) (word : JStr) : List (JStr × JsCount) :=
  if word = toJ "__proto__" then table
  else
    match table.find? (fun kv => kv.1 = word) with
    | some _ => table.map (fun kv => if kv.1 = word then (kv.1, jsAddOne kv.2) else kv)
    | none =>
      table ++ [(word, if word = toJ "constructor" then JsCount.corrupt 1 else JsCount.num 1)]

/-- The whole frequency table of a word list. -/
def jsWordFreq (words : List JStr) : List (JStr × JsCount) :=
  words.foldl jsFreqBump []

/-- The sort comparator (a, b) maps to b[1] - a[1].  When either count
is the corrupted string, the numeric coercion of the string (it starts
with the word function) is NaN, the subtraction is NaN, and the sort
treats a NaN comparator result as zero, leaving the pair in its current
relative order.  jsCmpKeepBefore a b holds when the comparator result is
at most zero, i.e. the sort keeps a before b. -/
def jsCmpKeepBefore (a b : JStr × JsCount) : Bool :=
  match a.2, b.2 with
  | JsCount.num x, JsCount.num y => decide (y ≤ x)
  | _, _ => true

/-- Insertion step of the sort under the comparator above. -/
def insertByCmp (a : JStr × JsCount) : List (JStr × JsCount) → List (JStr × JsCount)
  | [] => [a]
  | b :: bs => if jsCmpKeepBefore a b then a :: b :: bs else b :: insertByCmp a bs

/-- Array.prototype.sort with the comparator above, modelled as a stable
insertion sort: on a consistent (all-numeric) comparator this is the
stable descending order every engine produces, and on the two-entry
corrupted inputs used below a single NaN comparison leaves the insertion
order unchanged, again as the engine sort does. -/
def sortEntries : List (JStr × JsCount) → List (JStr × JsCount)
  | [] => []
  | a :: l => insertByCmp a (sortEntries l)

/-- extractKeywords(text): lowercase, tokenize, keep tokens longer than
3 with no digit that are not stop-words, build the bare-object frequency
table, sort its entries with the descending-count comparator, return the
words.  The stop-word list of the natural package is passed in as a
parameter. -/
def extractKeywords (stopwords : List JStr) (text : JStr) : List JStr :=
  let filteredWords := filteredTokens stopwords text
  let entries := jsWordFreq filteredWords
  (sortEntries entries).map (·.1)

/-! ## nerProcessor.js : entity extraction -/

/-- One tagged token of the inference response; objects without a truthy
word or entity field are skipped by the processor, so the empty string
stands for a missing field. -/
structure NEREntity where
  word : JStr
  entity : String
  deriving DecidableEq, Repr

/-- Character kept by the cleaning regex: word characters, whitespace
and the hyphen (code 45). -/
def keepCode (n : Nat) : Bool := isWordCode n || isSpaceCode n || n == 45

/-- Removal of a leading BERT subword marker, the replace of ^## with
the empty string. -/
def stripHH : JStr → JStr
  | 35 :: 35 :: l => l
  | l => l

/-- cleanEntityText(text): drop a leading ##, delete every character
outside word/whitespace/hyphen, trim. -/
def cleanEntityText (s : JStr) : JStr :=
  trimJ ((stripHH s).filter keepCode)

/-- isEducationalInstitution(text). -/
def isEducationalInstitution (t : JStr) : Bool :=
  ["university", "college", "institute", "school", "academy"].any fun k =>
    jsIncludes (toLowerJ t) (toJ k)

/-- isLikelyTitle(text). -/
def isLikelyTitle (t : JStr) : Bool :=
  ["engineer", "developer", "manager", "director", "specialist"].any fun k =>
    jsIncludes (toLowerJ t) (toJ k)

/-- The per-bucket finish of processNERResults: drop empty strings,
clean, keep strings longer than one character, deduplicate keeping first
occurrences. -/
def cleanBucket (l : List JStr) : List JStr :=
  dedupFirst (((l.filter (fun s => !s.isEmpty)).map cleanEntityText).filter
    (fun t => decide (1 < t.length)))

/-- processNERResults(entities): route each tagged token into its
bucket, then clean and deduplicate every bucket.  A non-array response
(modelled as none) yields the empty result. -/
def processNERResults (data : Option (List NEREntity)) : EntityResult :=
  match data with
  | none => emptyEntities
  | some entities =>
    let step := fun (acc : EntityResult) (e : NEREntity) =>
      if e.word.isEmpty || e.entity == "" then acc
      else
        let text := cleanEntityText e.word
        if text.isEmpty then acc
        else
          match e.entity with
          | "B-TECH" | "I-TECH" =>
            if 1 < text.length then { acc with skills := acc.skills ++ [text] } else acc
          | "B-ORG" | "I-ORG" =>
            if isEducationalInstitution text then
              { acc with education := acc.education ++ [text] }
            else { acc with companies := acc.companies ++ [text] }
          | "B-PER" | "I-PER" =>
            if isLikelyTitle text then { acc with titles := acc.titles ++ [text] } else acc
          | "B-EDU" | "I-EDU" => { acc with education := acc.education ++ [text] }
          | "B-CERT" | "I-CERT" =>
            { acc with certifications := acc.certifications ++ [text] }
          | _ => acc
    let r := entities.foldl step emptyEntities
    { skills := cleanBucket r.skills
      companies := cleanBucket r.companies
      titles := cleanBucket r.titles
      education := cleanBucket r.education
      certifications := cleanBucket r.certifications }

/-! ### The regex fallback

extractByPattern is instantiated at the two concrete regexes of
fallbackEntityExtraction; each is embedded as a character-level scanner
that finds successive non-overlapping matches exactly as a global regex
exec loop does: try a match at each position, and on success continue
after the matched text. -/

/-- Match attempt for at\s+([A-Z][a-zA-Z]+) anchored at the current
position (codes 97 116 = at): on success return the capture group and
the rest of the input after the whole match. -/
def tryCompanyAt : JStr → Option (JStr × JStr)
  | 97 :: 116 :: rest =>
    let ws := rest.takeWhile isSpaceCode
    let r1 := rest.dropWhile isSpaceCode
    if ws.isEmpty then none
    else
      match r1 with
      | c :: r2 =>
        if isUpperCode c then
          let ls := r2.takeWhile isAlphaCode
          let r3 := r2.dropWhile isAlphaCode
          if ls.isEmpty then none else some (c :: ls, r3)
        else none
      | [] => none
  | _ => none

/-- Global exec loop for the company pattern. -/
def scanCompanies : Nat → JStr → List JStr
  | 0, _ => []
  | _, [] => []
  | fuel + 1, c :: rest =>
    match tryCompanyAt (c :: rest) with
    | some (cap, after) => cap :: scanCompanies fuel after
    | none => scanCompanies fuel rest

/-- Case-insensitive match of a lowercase literal pattern at the head of
the input, returning the matched characters as they appear in the input
and the rest. -/
def matchLitCI : List Nat → JStr → Option (JStr × JStr)
  | [], l => some ([], l)
  | _ :: _, [] => none
  | p :: ps, c :: l =>
    if toLowerCode c == p then
      match matchLitCI ps l with
      | some (m, r) => some (c :: m, r)
      | none => none
    else none

/-- Continuation of the education pattern after the captured keyword:
\s+of\s+ then a run of at least two letters (under the i flag the class
[A-Z][a-zA-Z]+ matches letters of either case).  Returns the rest of the
input after the whole match. -/
def eduTail (r : JStr) : Option JStr :=
  let ws := r.takeWhile isSpaceCode
  let r1 := r.dropWhile isSpaceCode
  if ws.isEmpty then none
  else
    match r1 with
    | o :: f :: r2 =>
      if toLowerCode o == 111 && toLowerCode f == 102 then
        let ws2 := r2.takeWhile isSpaceCode
        let r3 := r2.dropWhile isSpaceCode
        if ws2.isEmpty then none
        else
          match r3 with
          | c :: r4 =>
            if isAlphaCode c then
              let ls := r4.takeWhile isAlphaCode
              if ls.isEmpty then none else some (r4.dropWhile isAlphaCode)
            else none
          | [] => none
      else none
    | _ => none

/-- Match attempt for (university|college)\s+of\s+([A-Z][a-zA-Z]+) with
the i flag, anchored at the current position; the value produced is the
first capture group, which is what extractByPattern collects. -/
def tryEduAt (l : JStr) : Option (JStr × JStr) :=
  match matchLitCI (toJ "university") l with
  | some (m, r) =>
    match eduTail r with
    | some after => some (m, after)
    | none => none
  | none =>
    match matchLitCI (toJ "college") l with
    | some (m, r) =>
      match eduTail r with
      | some after => some (m, after)
      | none => none
    | none => none

/-- Global exec loop for the education pattern. -/
def scanEdu : Nat → JStr → List JStr
  | 0, _ => []
  | _, [] => []
  | fuel + 1, c :: rest =>
    match tryEduAt (c :: rest) with
    | some (cap, after) => cap :: scanEdu fuel after
    | none => scanEdu fuel rest

/-- extractByPattern for the company regex: trim each collected group,
drop empties, deduplicate. -/
def extractCompaniesByPattern (text : JStr) : List JStr :=
  dedupFirst (((scanCompanies text.length text).map trimJ).filter (fun m => !m.isEmpty))

/-- extractByPattern for the education regex. -/
def extractEduByPattern (text : JStr) : List JStr :=
  dedupFirst (((scanEdu text.length text).map trimJ).filter (fun m => !m.isEmpty))

/-- The fixed keyword list of the fallback pass. -/
def techKeywords : List String :=
  ["javascript", "react", "node", "python", "java", "html", "css"]

/-- fallbackEntityExtraction(text): keyword containment for skills, the
two regex passes for companies and education, empty titles and
certifications.  A missing or empty text yields the all-empty result. -/
def fallbackEntityExtraction (text : Option JStr) : EntityResult :=
  match text with
  | none => emptyEntities
  | some t =>
    if t.isEmpty then emptyEntities
    else
      { skills := (techKeywords.map toJ).filter (fun k => jsIncludes (toLowerJ t) k)
        companies := extractCompaniesByPattern t
        titles := []
        education := extractEduByPattern t
        certifications := [] }

/-- The guard at the top of extractEntities: a missing, non-string or
whitespace-only text throws, which the surrounding catch turns into the
fallback path. -/
def textInvalid : Option JStr → Bool
  | none => true
  | some t => t.isEmpty || (trimJ t).isEmpty

/-- extractEntities(resumeText) with its collaborators explicit: the NER
cache content under the hash of this text (none = miss; a corrupt cached
entry is deleted and treated as a miss), and the inference call outcome
(error = rejection or timeout, ok none = response without data, ok some
= tagged tokens).  Every failure path lands in the regex fallback. -/
def extractEntities (text : Option JStr) (cached : Option EntityResult)
    (api : Except String (Option (List NEREntity))) : EntityResult :=
  if textInvalid text then fallbackEntityExtraction text
  else
    match cached with
    | some v => v
    | none =>
      match api with
      | .error _ => fallbackEntityExtraction text
      | .ok none => fallbackEntityExtraction text
      | .ok (some data) => processNERResults data

/-! ## processResume.js : the pipeline -/

/-- The comprehensive analysis object returned by processResume.  The
success path also stores a lastUpdated stamp; the fallback literal has
no such key, modelled as none. -/
structure Analysis where
  score : ℚ
  strengths : List String
  improvements : List String
  keywords : List JStr
  importantPhrases : List JStr
  sentiment : Sentiment
  readability : Readability
  entities : EntityResult
  lastUpdated : Option String
  skillAssessment : List SkillRecord
  deriving DecidableEq, Repr

/-- findStrengths(entities, keywords, phrases). -/
def findStrengths (entities : EntityResult) (keywords phrases : List JStr) : List String :=
  let strengths :=
    (if 5 < entities.skills.length then
      ["Strong technical skills (" ++ toString entities.skills.length ++ " skills identified)"]
    else [])
    ++ (if 0 < entities.companies.length then
      ["Professional experience at " ++ toString entities.companies.length ++ " companies"]
    else [])
    ++ (if 0 < entities.education.length then
      ["Strong educational background (" ++ toString entities.education.length
        ++ " institutions)"]
    else [])
    ++ (if 10 < keywords.length then ["Rich in relevant keywords"] else [])
    ++ (if 5 < phrases.length then ["Well-articulated professional experience"] else [])
  if 0 < strengths.length then strengths else ["Well-structured resume"]

/-- findImprovements(sentiment, entities, readability). -/
def findImprovements (sentiment : Sentiment) (entities : EntityResult)
    (readability : Readability) : List String :=
  let improvements :=
    (if sentiment.label = "anger" ∨ sentiment.label = "sadness" then
      ["Consider more positive and professional language"]
    else [])
    ++ (if entities.skills.length < 3 then ["Add more technical skills to stand out"] else [])
    ++ (if entities.companies.length = 0 then
      ["Include company names for better credibility"]
    else [])
    ++ (if 25 < readability.avgSentenceLength then
      ["Shorten long sentences for better readability"]
    else [])
    ++ (if readability.fleschScore < 60 then
      ["Simplify language to make resume more accessible"]
    else [])
  if 0 < improvements.length then improvements else ["Minor formatting suggestions"]

/-- fallbackAnalysis(): the fixed degraded result.  The source literal
omits the certifications bucket and the lastUpdated key; absent keys are
the empty bucket and none. -/
def fallbackAnalysis : Analysis :=
  { score := 70
    strengths := ["Basic structure is good"]
    improvements := ["Could not perform full analysis - try again later"]
    keywords := []
    importantPhrases := []
    sentiment := { label := "neutral", score := 1, allResults := [] }
    readability :=
      { sentenceCount := 0, wordCount := 0, avgSentenceLength := 0, avgWordLength := 0,
        fleschScore := 0, fleschGradeLevel := 0, difficultWords := 0 }
    entities := emptyEntities
    lastUpdated := none
    skillAssessment := [] }

/-- The try block of processResume, with every collaborator outcome
explicit: text extraction may reject; analyzeSentiment and
extractEntities always produce a value (they have internal fallbacks);
calculateReadability uses the natural library and may throw; phrase
extraction uses the external POS tagger; dashWrite and skillWrite are
the outcomes of the two awaited cache writes (setDashboard and
setSkillProgress rethrow cache errors). -/
def processResumeBody (stopwords : List JStr) (extractRes : Except String JStr)
    (sentimentOf : JStr → Sentiment) (entitiesOf : JStr → EntityResult)
    (readabilityOf : JStr → Except String Readability) (phrasesOf : JStr → List JStr)
    (drawFor : Nat → Nat) (now : String) (dashWrite skillWrite : Except String Unit) :
    Except String Analysis :=
  match extractRes with
  | Except.error e => Except.error e
  | Except.ok resumeText =>
    let sentimentAnalysis := sentimentOf resumeText
    let entities := entitiesOf resumeText
    match readabilityOf resumeText with
    | Except.error e => Except.error e
    | Except.ok readability =>
      let keywords := extractKeywords stopwords resumeText
      let importantPhrases := phrasesOf resumeText
      let score := calculateScore sentimentAnalysis entities readability keywords.length
      let strengths := findStrengths entities keywords importantPhrases
      let improvements := findImprovements sentimentAnalysis entities readability
      let skillAssessment := assessSkills drawFor now entities.skills
      let dashboardData : Analysis :=
        { score := (jsRound score : ℚ)
          strengths := strengths
          improvements := improvements
          keywords := keywords.take 20
          importantPhrases := importantPhrases.take 10
          sentiment := sentimentAnalysis
          readability := readability
          entities := entities
          lastUpdated := some now
          skillAssessment := [] }
      match dashWrite with
      | Except.error e => Except.error e
      | Except.ok _ =>
        match skillWrite with
        | Except.error e => Except.error e
        | Except.ok _ => Except.ok { dashboardData with skillAssessment := skillAssessment }

/-- processResume: the try block, with the catch returning
fallbackAnalysis. -/
def processResume (stopwords : List JStr) (extractRes : Except String JStr)
    (sentimentOf : JStr → Sentiment) (entitiesOf : JStr → EntityResult)
    (readabilityOf : JStr → Except String Readability) (phrasesOf : JStr → List JStr)
    (drawFor : Nat → Nat) (now : String) (dashWrite skillWrite : Except String Unit) :
    Analysis :=
  match processResumeBody stopwords extractRes sentimentOf entitiesOf readabilityOf
    phrasesOf drawFor now dashWrite skillWrite with
  | .ok a => a
  | .error _ => fallbackAnalysis

/-! ## Well-formedness predicates and concrete fixtures -/

/-- A well-formed entity bucket: no duplicates, and every member is a
non-trivial (length above one) string that the cleaner leaves unchanged. -/
def WFBucket (l : List JStr) : Prop :=
  l.Nodup ∧ ∀ s ∈ l, 1 < s.length ∧ cleanEntityText s = s

/-- A well-formed entity structure: all five buckets well-formed. -/
def WFEntities (e : EntityResult) : Prop :=
  WFBucket e.skills ∧ WFBucket e.companies ∧ WFBucket e.titles ∧
    WFBucket e.education ∧ WFBucket e.certifications

/-- Existing cached record of the skill-merge example: go with progress
40 practiced at T0. -/
def goExistingC3 : SkillRecord :=
  { name := toJ "go", level := none, targetLevel := none, category := none,
    lastPracticed := some "T0", progress := some 40 }

/-- Incoming record of the skill-merge example: go with level 70 and no
other fields. -/
def goIncomingC3 : SkillRecord :=
  { name := toJ "go", level := some 70, targetLevel := none, category := none,
    lastPracticed := none, progress := none }

/-- Expected merged record of the skill-merge example. -/
def goMergedC3 : SkillRecord :=
  { name := toJ "go", level := some 70, targetLevel := none, category := none,
    lastPracticed := some "T0", progress := some 40 }

/-- The neutral sentiment value. -/
def neutralSentiment : Sentiment := { label := "neutral", score := 1, allResults := [] }

/-- Readability input of the non-integer score counterexample: no
readability bonus fires. -/
def cexReadability : Readability :=
  { sentenceCount := 0, wordCount := 0, avgSentenceLength := 25, avgWordLength := 0,
    fleschScore := 0, fleschGradeLevel := 0, difficultWords := 0 }

/-- The all-zero readability of the fallback analysis. -/
def zeroReadability : Readability :=
  { sentenceCount := 0, wordCount := 0, avgSentenceLength := 0, avgWordLength := 0,
    fleschScore := 0, fleschGradeLevel := 0, difficultWords := 0 }

/-- The record assessSkills produces for the single skill go under the
all-zero random draw at time T. -/
def goAssessedRecord : SkillRecord :=
  { name := toJ "go", level := some ((52 : Nat) : ℚ),
    targetLevel := some (((52 : Nat) : ℚ) + 20), category := some "programming",
    lastPracticed := some "T", progress := some 0 }

/-- Keyword-extraction failing input: the token constructor collides
with the inherited Object.prototype key. -/
def pollutionText : JStr := toJ "constructor apple apple apple"

/-- Entity-extraction witness text. -/
def nerWitnessText : JStr := toJ "Worked at Google using javascript"

/-! # Theorems -/

/-! ## General helper lemmas -/

theorem dedupFirst_go_mem {α : Type} [DecidableEq α] :
    ∀ (l seen : List α) (a : α), a ∈ dedupFirst.go seen l → a ∈ l := by
  intro l
  induction l with
  | nil => intro seen a h; simp [dedupFirst.go] at h
  | cons b t ih =>
    intro seen a h
    simp only [dedupFirst.go] at h
    split at h
    · exact List.mem_cons_of_mem _ (ih seen a h)
    · rcases List.mem_cons.mp h with h1 | h1
      · exact h1 ▸ List.mem_cons_self _ _
      · exact List.mem_cons_of_mem _ (ih _ a h1)

theorem dedupFirst_subset {α : Type} [DecidableEq α] {l : List α} {a : α}
    (h : a ∈ dedupFirst l) : a ∈ l :=
  dedupFirst_go_mem l [] a h

theorem dedupFirst_go_not_mem_seen {α : Type} [DecidableEq α] :
    ∀ (l seen : List α) (a : α), a ∈ dedupFirst.go seen l → a ∉ seen := by
  intro l
  induction l with
  | nil => intro seen a h; simp [dedupFirst.go] at h
  | cons b t ih =>
    intro seen a h
    simp only [dedupFirst.go] at h
    split at h
    · exact ih seen a h
    · rcases List.mem_cons.mp h with h1 | h1
      · subst h1; assumption
      · intro hs
        exact ih _ a h1 (List.mem_cons_of_mem _ hs)

theorem dedupFirst_go_nodup {α : Type} [DecidableEq α] :
    ∀ (l seen : List α), (dedupFirst.go seen l).Nodup := by
  intro l
  induction l with
  | nil => intro seen; simp [dedupFirst.go]
  | cons b t ih =>
    intro seen
    simp only [dedupFirst.go]
    split
    · exact ih seen
    · refine List.nodup_cons.mpr ⟨?_, ih _⟩
      intro hmem
      exact dedupFirst_go_not_mem_seen t (b :: seen) b hmem (List.mem_cons_self _ _)

theorem dedupFirst_nodup {α : Type} [DecidableEq α] (l : List α) :
    (dedupFirst l).Nodup :=
  dedupFirst_go_nodup l []

theorem dropWhile_eq_self_of_all {p : Nat → Bool} {l : JStr}
    (h : ∀ c ∈ l, p c = false) : l.dropWhile p = l := by
  cases l with
  | nil => rfl
  | cons c t =>
    rw [List.dropWhile_cons, h c (List.mem_cons_self _ _)]
    simp

theorem trimJ_eq_self_of_all {l : JStr} (h : ∀ c ∈ l, isSpaceCode c = false) :
    trimJ l = l := by
  unfold trimJ
  rw [dropWhile_eq_self_of_all h,
    dropWhile_eq_self_of_all (fun c hc => h c (List.mem_reverse.mp hc)),
    List.reverse_reverse]

theorem trimJ_subset {l : JStr} {a : Nat} (h : a ∈ trimJ l) : a ∈ l := by
  unfold trimJ at h
  have h1 := List.mem_reverse.mp h
  have h2 := (List.dropWhile_sublist _).subset h1
  have h3 := List.mem_reverse.mp h2
  exact (List.dropWhile_sublist _).subset h3

theorem dropWhile_head_false {p : Nat → Bool} :
    ∀ (l : JStr) {c : Nat} {r : JStr}, l.dropWhile p = c :: r → p c = false := by
  intro l
  induction l with
  | nil => intro c r h; simp at h
  | cons a t ih =>
    intro c r h
    by_cases hpa : p a = true
    · rw [List.dropWhile_cons, if_pos hpa] at h
      exact ih h
    · rw [List.dropWhile_cons, if_neg hpa] at h
      injection h with h1 _
      subst h1
      simpa using hpa

theorem dropWhile_idem {p : Nat → Bool} (l : JStr) :
    (l.dropWhile p).dropWhile p = l.dropWhile p := by
  cases h : l.dropWhile p with
  | nil => rfl
  | cons c r =>
    rw [List.dropWhile_cons, dropWhile_head_false l h]
    simp

theorem trimJ_eq_self_of {l : JStr} (h1 : l.dropWhile isSpaceCode = l)
    (h2 : l.reverse.dropWhile isSpaceCode = l.reverse) : trimJ l = l := by
  unfold trimJ
  rw [h1, h2, List.reverse_reverse]

theorem trimJ_idem (l : JStr) : trimJ (trimJ l) = trimJ l := by
  have htdef : trimJ l =
      ((l.dropWhile isSpaceCode).reverse.dropWhile isSpaceCode).reverse := rfl
  apply trimJ_eq_self_of
  · cases htr : trimJ l with
    | nil => rfl
    | cons c r =>
      have hpref : trimJ l ++
          ((l.dropWhile isSpaceCode).reverse.takeWhile isSpaceCode).reverse =
          l.dropWhile isSpaceCode := by
        have htd := List.takeWhile_append_dropWhile isSpaceCode
          (l.dropWhile isSpaceCode).reverse
        calc trimJ l ++ ((l.dropWhile isSpaceCode).reverse.takeWhile isSpaceCode).reverse
            = ((l.dropWhile isSpaceCode).reverse.dropWhile isSpaceCode).reverse ++
              ((l.dropWhile isSpaceCode).reverse.takeWhile isSpaceCode).reverse := by
              rw [htdef]
          _ = ((l.dropWhile isSpaceCode).reverse.takeWhile isSpaceCode ++
              (l.dropWhile isSpaceCode).reverse.dropWhile isSpaceCode).reverse := by
              rw [List.reverse_append]
          _ = (l.dropWhile isSpaceCode).reverse.reverse := by rw [htd]
          _ = l.dropWhile isSpaceCode := List.reverse_reverse _
      have hhead : l.dropWhile isSpaceCode = c ::
          (r ++ ((l.dropWhile isSpaceCode).reverse.takeWhile isSpaceCode).reverse) := by
        conv_lhs => rw [← hpref, htr]
        simp
      have hc := dropWhile_head_false l hhead
      rw [List.dropWhile_cons, hc]
      simp
  · rw [htdef, List.reverse_reverse]
    exact dropWhile_idem _

theorem stripHH_eq_self {l : JStr} (h : (35 : Nat) ∉ l) : stripHH l = l := by
  unfold stripHH
  split
  · next t =>
    exact absurd (List.mem_cons_self _ _) h
  · rfl

theorem cleanEntityText_keep {s : JStr} :
    ∀ c ∈ cleanEntityText s, keepCode c = true := by
  intro c hc
  unfold cleanEntityText at hc
  exact (List.mem_filter.mp (trimJ_subset hc)).2

theorem cleanEntityText_idem (s : JStr) :
    cleanEntityText (cleanEntityText s) = cleanEntityText s := by
  have hkeep := cleanEntityText_keep (s := s)
  have h35 : (35 : Nat) ∉ cleanEntityText s := by
    intro hm
    have := hkeep 35 hm
    simp [keepCode, isWordCode, isSpaceCode] at this
  conv_lhs => rw [cleanEntityText]
  rw [stripHH_eq_self h35, List.filter_eq_self.mpr hkeep]
  show trimJ (trimJ _) = _
  rw [trimJ_idem]
  rfl

/-! ## C1 : updateSkillProgress and cache persistence -/

/-- C1: the claim fails on the code.  For the cached set containing the
go record with progress 40, updateSkillProgress with delta 10 returns
the bumped set (progress 50, lastPracticed T1), but the write-back goes
through the merging setSkillProgress, which restores the pre-existing
progress and lastPracticed of every name-matched record, so a subsequent
getSkillProgress still returns progress 40 and lastPracticed T0. -/
theorem updateSkillProgress_bump_not_persisted :
    (updateSkillProgress (some [goRecord]) (toJ "go") 10 "T1").2 = [goRecordBumped] ∧
    getSkillProgress (updateSkillProgress (some [goRecord]) (toJ "go") 10 "T1").1 =
      some [goRecord] ∧
    goRecordBumped.progress = some 50 ∧ goRecord.progress = some 40 ∧
    goRecordBumped.lastPracticed = some "T1" ∧ goRecord.lastPracticed = some "T0" := by
  refine ⟨?_, ?_, rfl, rfl, rfl, rfl⟩
  · simp only [updateSkillProgress, getSkillProgress, Option.getD_some, List.map_cons,
      List.map_nil, goRecord, goRecordBumped, bumpProgress]
    norm_num
  · simp only [updateSkillProgress, setSkillProgress, getSkillProgress, Option.getD_some,
      mergeSkills, List.map_cons, List.map_nil, List.find?, goRecord, bumpProgress]
    norm_num

/-! ## C2 : job-result retrieval key mismatch -/

/-- C2: the claim fails on the code.  The queue processor writes the
terminal payload under resume:userId:jobId, but the retrieval endpoint
reads resume:jobId; for the completed job (userId u1, jobId 42) whose
payload is in the store under the documented key, the endpoint answers
not-found. -/
theorem getResumeAnalysis_key_mismatch :
    getResumeAnalysis (processorWriteTerminal [] "u1" "42" "payload") "42" = none ∧
    (processorWriteTerminal [] "u1" "42" "payload").find?
      (fun kv => kv.1 = resumeWriteKey "u1" "42") =
      some (resumeWriteKey "u1" "42", "payload") := by
  constructor
  · simp [getResumeAnalysis, processorWriteTerminal, resumeWriteKey]
  · simp [processorWriteTerminal, resumeWriteKey]

/-! ## C3 : the merge of setSkillProgress -/

/-- C3: for every write through setSkillProgress, an incoming record
whose name has a (first) match among the existing records keeps the
existing progress and lastPracticed while taking the incoming name,
level, category and targetLevel; an incoming record with no match is
stored as-is; and the stored set is exactly the merge of the existing
set with the incoming one.  The concrete example of the spec holds. -/
theorem setSkillProgress_merge_semantics :
    (∀ (existing incoming : List SkillRecord) (i : Nat) (ns es : SkillRecord),
      incoming[i]? = some ns →
      existing.find? (fun s => s.name = ns.name) = some es →
      ∃ r, (mergeSkills existing incoming)[i]? = some r ∧
        r.name = ns.name ∧ r.level = ns.level ∧ r.category = ns.category ∧
        r.targetLevel = ns.targetLevel ∧
        r.progress = es.progress ∧ r.lastPracticed = es.lastPracticed) ∧
    (∀ (existing incoming : List SkillRecord) (i : Nat) (ns : SkillRecord),
      incoming[i]? = some ns →
      existing.find? (fun s => s.name = ns.name) = none →
      (mergeSkills existing incoming)[i]? = some ns) ∧
    (∀ (store : Option (List SkillRecord)) (skills : List SkillRecord),
      setSkillProgress store skills =
        some (mergeSkills ((getSkillProgress store).getD []) skills)) ∧
    mergeSkills [goExistingC3] [goIncomingC3] = [goMergedC3] := by
  refine ⟨?_, ?_, fun _ _ => rfl, ?_⟩
  · intro existing incoming i ns es hi hf
    refine ⟨{ ns with progress := es.progress, lastPracticed := es.lastPracticed }, ?_,
      rfl, rfl, rfl, rfl, rfl, rfl⟩
    simp only [mergeSkills, List.getElem?_map, hi, Option.map_some']
    rw [hf]
  · intro existing incoming i ns hi hf
    simp only [mergeSkills, List.getElem?_map, hi, Option.map_some']
    rw [hf]
  · simp [mergeSkills, goExistingC3, goIncomingC3, goMergedC3, List.find?]

/-- C3 witness: the general clauses applied to the concrete example
records. -/
theorem setSkillProgress_merge_semantics_witness :
    ([goIncomingC3][0]? = some goIncomingC3) ∧
    ([goExistingC3].find? (fun s => s.name = goIncomingC3.name) = some goExistingC3) ∧
    (∃ r, (mergeSkills [goExistingC3] [goIncomingC3])[0]? = some r ∧
      r.name = goIncomingC3.name ∧ r.level = goIncomingC3.level ∧
      r.category = goIncomingC3.category ∧ r.targetLevel = goIncomingC3.targetLevel ∧
      r.progress = goExistingC3.progress ∧ r.lastPracticed = goExistingC3.lastPracticed) := by
  have h1 : [goIncomingC3][0]? = some goIncomingC3 := rfl
  have h2 : [goExistingC3].find? (fun s => s.name = goIncomingC3.name) =
      some goExistingC3 := by
    simp [goExistingC3, goIncomingC3, List.find?]
  exact ⟨h1, h2, setSkillProgress_merge_semantics.1 [goExistingC3] [goIncomingC3] 0
    goIncomingC3 goExistingC3 h1 h2⟩

/-! ## C4 and C9 : the scoring function -/

/-- C4 counterexample: with neutral sentiment, no entities, no
readability bonus and exactly one keyword, calculateScore returns 70.5,
which is not an integer, refuting the claim that the final value is an
integer. -/
theorem calculateScore_not_integer :
    calculateScore neutralSentiment emptyEntities cexReadability 1 = 141 / 2 ∧
    (∀ n : ℤ, calculateScore neutralSentiment emptyEntities cexReadability 1 ≠ (n : ℚ)) := by
  have hval : calculateScore neutralSentiment emptyEntities cexReadability 1 = 141 / 2 := by
    simp only [calculateScore, neutralSentiment, emptyEntities, cexReadability]
    rw [if_neg (show ¬(("neutral" : String) = "joy" ∧ (1 : ℚ) > 7 / 10) from
      fun h => absurd h.1 (by decide))]
    norm_num [min_def, max_def]
  refine ⟨hval, ?_⟩
  intro n h
  rw [hval, div_eq_iff (by norm_num : (2 : ℚ) ≠ 0)] at h
  have h2 : (141 : ℤ) = n * 2 := by exact_mod_cast h
  omega

/-- C4 amended: calculateScore equals the spec formula for every input,
and the final value is clamped to the interval from 0 to 100; it is not
always an integer (the keyword term contributes half points), which is
the only part of the claim that fails. -/
theorem calculateScore_matches_formula :
    ∀ (s : Sentiment) (e : EntityResult) (r : Readability) (k : Nat),
      calculateScore s e r k = specScoreFormula s e r k ∧
      0 ≤ calculateScore s e r k ∧ calculateScore s e r k ≤ 100 := by
  intro s e r k
  refine ⟨?_, ?_, ?_⟩
  · simp only [calculateScore, specScoreFormula, mul_comm, one_mul, mul_one]
    split_ifs <;> ring_nf
  · simp only [calculateScore]
    exact le_min (le_max_right _ _) (by norm_num)
  · simp only [calculateScore]
    exact min_le_right _ _

/-- C4 witness: the amended statement evaluated at the counterexample
input. -/
theorem calculateScore_matches_formula_witness :
    calculateScore neutralSentiment emptyEntities cexReadability 1 =
      specScoreFormula neutralSentiment emptyEntities cexReadability 1 ∧
    0 ≤ calculateScore neutralSentiment emptyEntities cexReadability 1 ∧
    calculateScore neutralSentiment emptyEntities cexReadability 1 ≤ 100 :=
  calculateScore_matches_formula neutralSentiment emptyEntities cexReadability 1

/-- C9: for arbitrary analyzer outputs the score stays between the base
70 and 100: every contribution is non-negative, so the clamp to 0 never
binds from below. -/
theorem calculateScore_range :
    ∀ (s : Sentiment) (e : EntityResult) (r : Readability) (k : Nat),
      70 ≤ calculateScore s e r k ∧ calculateScore s e r k ≤ 100 := by
  intro s e r k
  constructor
  · simp only [calculateScore]
    refine le_min ?_ (by norm_num)
    refine le_trans ?_ (le_max_left _ _)
    have h1 : (0 : ℚ) ≤ min ((e.skills.length : ℚ) * 2) 20 :=
      le_min (by positivity) (by norm_num)
    have h2 : (0 : ℚ) ≤ min ((e.companies.length : ℚ) * 1) 10 :=
      le_min (by positivity) (by norm_num)
    have h3 : (0 : ℚ) ≤ min ((k : ℚ) * (1 / 2)) 10 :=
      le_min (by positivity) (by norm_num)
    split_ifs <;> linarith
  · simp only [calculateScore]
    exact min_le_right _ _

/-- C9 witness: the range statement evaluated at the neutral input. -/
theorem calculateScore_range_witness :
    70 ≤ calculateScore neutralSentiment emptyEntities zeroReadability 0 ∧
    calculateScore neutralSentiment emptyEntities zeroReadability 0 ≤ 100 :=
  calculateScore_range neutralSentiment emptyEntities zeroReadability 0

/-! ## C6 : assessSkills -/

/-- C6: every record produced by assessSkills carries a natural level,
a target level equal to min(level + 20, 100), and progress initialized
to 0, for every random draw assignment, timestamp and skill list. -/
theorem assessSkills_target_and_progress :
    ∀ (drawFor : Nat → Nat) (now : String) (skills : List JStr) (r : SkillRecord),
      r ∈ assessSkills drawFor now skills →
      (∃ level : Nat, r.level = some ((level : ℚ)) ∧
        r.targetLevel = some (((min (level + 20) 100 : Nat) : ℚ))) ∧
      r.progress = some 0 := by
  intro drawFor now skills r hr
  simp only [assessSkills, List.mem_map] at hr
  obtain ⟨p, _, rfl⟩ := hr
  refine ⟨⟨calculateSkillLevel (drawFor p.1) p.2, rfl, ?_⟩, rfl⟩
  by_cases h80 : calculateSkillLevel (drawFor p.1) p.2 < 80
  · rw [if_pos h80, min_eq_left (by omega)]
    push_cast
    rfl
  · rw [if_neg h80, min_eq_right (by omega)]
    norm_num

/-- C6 witness: the statement at the singleton skill list containing go,
the all-zero draw and timestamp T, where the produced record has level
52, target level 72 and progress 0. -/
theorem assessSkills_target_and_progress_witness :
    (goAssessedRecord ∈ assessSkills (fun _ => 0) "T" [toJ "go"]) ∧
    ((∃ level : Nat, goAssessedRecord.level = some ((level : ℚ)) ∧
      goAssessedRecord.targetLevel = some (((min (level + 20) 100 : Nat) : ℚ))) ∧
    goAssessedRecord.progress = some 0) := by
  have hmem : goAssessedRecord ∈ assessSkills (fun _ => 0) "T" [toJ "go"] := by
    have : assessSkills (fun _ => 0) "T" [toJ "go"] = [goAssessedRecord] := rfl
    rw [this]
    exact List.mem_cons_self _ _
  exact ⟨hmem, assessSkills_target_and_progress (fun _ => 0) "T" [toJ "go"]
    goAssessedRecord hmem⟩

/-! ## C8 : content relevance -/

/-- C8 counterexample: for the gap-50 go skill and an old long-read
article tagged capitalized Go, the code (which compares tags
case-insensitively) scores 0.8 while the formula of the claim (exact tag
match) scores 0.5, so the claim as stated fails. -/
theorem calculateRelevance_exact_match_refuted :
    calculateRelevance 1000000000000 goPrioSkill goArticleUpper = 4 / 5 ∧
    specRelevanceExact 1000000000000 goPrioSkill goArticleUpper = 1 / 2 ∧
    ¬((4 : ℚ) / 5 = 1 / 2) := by
  refine ⟨?_, ?_, by norm_num⟩
  · simp only [calculateRelevance, goPrioSkill, goArticleUpper]
    rw [if_pos (by decide : toLowerJ (toJ "Go") = toLowerJ (toJ "go"))]
    norm_num [min_def]
  · simp only [specRelevanceExact, goPrioSkill, goArticleUpper]
    rw [if_neg (by decide : ¬(toJ "Go" = toJ "go"))]
    norm_num [min_def]

/-- C8 amended: the relevance score equals the formula of the claim with
the tag comparison made case-insensitive (the only part the
counterexample forces to change), and in the concrete ranking example
the go-tagged article published today outranks the python-tagged article
published a year earlier. -/
theorem calculateRelevance_formula_and_ranking :
    (∀ (nowMs : ℚ) (skill : PrioSkill) (article : Article),
      calculateRelevance nowMs skill article = specRelevanceCI nowMs skill article) ∧
    calculateRelevance 1000000000000 goPrioSkill goArticleToday = 1 ∧
    calculateRelevance 1000000000000 goPrioSkill pythonArticleYearOld = 3 / 5 ∧
    calculateRelevance 1000000000000 goPrioSkill pythonArticleYearOld <
      calculateRelevance 1000000000000 goPrioSkill goArticleToday := by
  have hformula : ∀ (nowMs : ℚ) (skill : PrioSkill) (article : Article),
      calculateRelevance nowMs skill article = specRelevanceCI nowMs skill article := by
    intro nowMs skill article
    simp only [calculateRelevance, specRelevanceCI]
    split_ifs <;> ring_nf
  have h1 : calculateRelevance 1000000000000 goPrioSkill goArticleToday = 1 := by
    simp only [calculateRelevance, goPrioSkill, goArticleToday]
    norm_num [min_def]
  have h2 : calculateRelevance 1000000000000 goPrioSkill pythonArticleYearOld = 3 / 5 := by
    simp only [calculateRelevance, goPrioSkill, pythonArticleYearOld]
    rw [if_neg (by decide : ¬(toLowerJ (toJ "python") = toLowerJ (toJ "go")))]
    norm_num [min_def]
  refine ⟨hformula, h1, h2, ?_⟩
  rw [h1, h2]
  norm_num

/-! ## C7 : extractKeywords -/

/-- C7: the claim fails on the code, and the code contradicts its own
comments (count word frequencies, sort by frequency).  The frequency
table is a bare object, so for the token constructor the lookup
wordFreq[word] || 0 starts from the inherited Object constructor
function and the stored count becomes a non-numeric string; the sort
comparator then yields NaN, which the sort treats as zero, so the entry
keeps its insertion position.  For the text containing constructor once
and apple three times, the output lists constructor before apple
although their frequencies in the filtered text are 1 and 3, violating
the descending-by-frequency ordering the claim states. -/
theorem extractKeywords_constructor_pollution :
    extractKeywords [] pollutionText = [toJ "constructor", toJ "apple"] ∧
    jsWordFreq (filteredTokens [] pollutionText) =
      [(toJ "constructor", JsCount.corrupt 1), (toJ "apple", JsCount.num 3)] ∧
    (filteredTokens [] pollutionText).count (toJ "constructor") = 1 ∧
    (filteredTokens [] pollutionText).count (toJ "apple") = 3 := by
  refine ⟨?_, ?_, ?_, ?_⟩ <;> decide

/-! ## C5 : extractEntities -/

theorem isAlpha_not_space {c : Nat} (h : isAlphaCode c = true) : isSpaceCode c = false := by
  simp only [isAlphaCode, decide_eq_true_eq] at h
  simp only [isSpaceCode, decide_eq_false_iff_not]
  omega

theorem isAlpha_keep {c : Nat} (h : isAlphaCode c = true) : keepCode c = true := by
  simp only [isAlphaCode, decide_eq_true_eq] at h
  simp only [keepCode, isWordCode, isSpaceCode, Bool.or_eq_true, decide_eq_true_eq,
    beq_iff_eq]
  omega

theorem isUpper_alpha {c : Nat} (h : isUpperCode c = true) : isAlphaCode c = true := by
  simp only [isUpperCode, decide_eq_true_eq] at h
  simp only [isAlphaCode, decide_eq_true_eq]
  omega

theorem toLower_eq_lowercase_alpha {c p : Nat} (hp : 97 ≤ p ∧ p ≤ 122)
    (h : toLowerCode c = p) : isAlphaCode c = true := by
  unfold toLowerCode at h
  simp only [isAlphaCode, decide_eq_true_eq]
  split_ifs at h <;> omega

theorem alpha_clean {s : JStr} (h : ∀ c ∈ s, isAlphaCode c = true) :
    cleanEntityText s = s ∧ trimJ s = s := by
  have hsp : ∀ c ∈ s, isSpaceCode c = false := fun c hc => isAlpha_not_space (h c hc)
  have htrim : trimJ s = s := trimJ_eq_self_of_all hsp
  have hkeep : ∀ c ∈ s, keepCode c = true := fun c hc => isAlpha_keep (h c hc)
  have h35 : (35 : Nat) ∉ s := by
    intro hm
    have := h 35 hm
    simp [isAlphaCode] at this
  refine ⟨?_, htrim⟩
  unfold cleanEntityText
  rw [stripHH_eq_self h35, List.filter_eq_self.mpr hkeep, htrim]

theorem tryCompanyAt_spec :
    ∀ {l cap after : JStr}, tryCompanyAt l = some (cap, after) →
      2 ≤ cap.length ∧ ∀ c ∈ cap, isAlphaCode c = true := by
  intro l cap after h
  unfold tryCompanyAt at h
  split at h
  · simp only [] at h
    split_ifs at h with hws
    split at h
    · rename_i rest chd ctl heq
      split_ifs at h with hup hls
      injection h with hpair
      injection hpair with hcap hafter
      subst hcap
      constructor
      · cases hls2 : ctl.takeWhile isAlphaCode with
        | nil => rw [hls2] at hls; simp at hls
        | cons x xs => simp
      · intro c2 hc2
        rcases List.mem_cons.mp hc2 with h1 | h1
        · exact h1 ▸ isUpper_alpha hup
        · exact List.mem_takeWhile_imp h1
    · exact Option.noConfusion h
  · exact Option.noConfusion h

theorem scanCompanies_mem :
    ∀ (fuel : Nat) (l cap : JStr), cap ∈ scanCompanies fuel l →
      2 ≤ cap.length ∧ ∀ c ∈ cap, isAlphaCode c = true := by
  intro fuel
  induction fuel with
  | zero => intro l cap h; simp [scanCompanies] at h
  | succ f ih =>
    intro l cap h
    cases l with
    | nil => simp [scanCompanies] at h
    | cons a t =>
      simp only [scanCompanies] at h
      split at h
      · rename_i cap2 after heq
        rcases List.mem_cons.mp h with h1 | h1
        · exact h1 ▸ tryCompanyAt_spec heq
        · exact ih after cap h1
      · exact ih t cap h

theorem matchLitCI_spec :
    ∀ (ps : List Nat) (l : JStr) {m r : JStr}, (∀ p ∈ ps, 97 ≤ p ∧ p ≤ 122) →
      matchLitCI ps l = some (m, r) →
      m.length = ps.length ∧ ∀ c ∈ m, isAlphaCode c = true := by
  intro ps
  induction ps with
  | nil =>
    intro l m r _ h
    simp only [matchLitCI, Option.some.injEq, Prod.mk.injEq] at h
    obtain ⟨hm, _⟩ := h
    subst hm
    exact ⟨rfl, by simp⟩
  | cons p ps ih =>
    intro l m r hps h
    cases l with
    | nil => simp [matchLitCI] at h
    | cons c t =>
      simp only [matchLitCI] at h
      split_ifs at h with hlc
      split at h
      · rename_i m2 r2 heq
        injection h with hpair
        injection hpair with hm hr
        subst hm
        have hp := hps p (List.mem_cons_self _ _)
        have hrec := ih t (fun q hq => hps q (List.mem_cons_of_mem _ hq)) heq
        refine ⟨by simp [hrec.1], ?_⟩
        intro c2 hc2
        rcases List.mem_cons.mp hc2 with h1 | h1
        · exact h1 ▸ toLower_eq_lowercase_alpha hp (by simpa using hlc)
        · exact hrec.2 c2 h1
      · exact Option.noConfusion h

theorem tryEduAt_spec :
    ∀ {l cap after : JStr}, tryEduAt l = some (cap, after) →
      2 ≤ cap.length ∧ ∀ c ∈ cap, isAlphaCode c = true := by
  intro l cap after h
  unfold tryEduAt at h
  split at h
  · rename_i m r heq
    split at h
    · rename_i a heq2
      injection h with hpair
      injection hpair with hcap hafter
      subst hcap
      have hrec := matchLitCI_spec (toJ "university") l (by decide) heq
      refine ⟨?_, hrec.2⟩
      rw [hrec.1]
      decide
    · exact Option.noConfusion h
  · rename_i hnone
    split at h
    · rename_i m r heq
      split at h
      · rename_i a heq2
        injection h with hpair
        injection hpair with hcap hafter
        subst hcap
        have hrec := matchLitCI_spec (toJ "college") l (by decide) heq
        refine ⟨?_, hrec.2⟩
        rw [hrec.1]
        decide
      · exact Option.noConfusion h
    · exact Option.noConfusion h

theorem scanEdu_mem :
    ∀ (fuel : Nat) (l cap : JStr), cap ∈ scanEdu fuel l →
      2 ≤ cap.length ∧ ∀ c ∈ cap, isAlphaCode c = true := by
  intro fuel
  induction fuel with
  | zero => intro l cap h; simp [scanEdu] at h
  | succ f ih =>
    intro l cap h
    cases l with
    | nil => simp [scanEdu] at h
    | cons a t =>
      simp only [scanEdu] at h
      split at h
      · rename_i cap2 after heq
        rcases List.mem_cons.mp h with h1 | h1
        · exact h1 ▸ tryEduAt_spec heq
        · exact ih after cap h1
      · exact ih t cap h

theorem WFBucket_nil : WFBucket [] := ⟨List.nodup_nil, by simp⟩

theorem WFEntities_empty : WFEntities emptyEntities :=
  ⟨WFBucket_nil, WFBucket_nil, WFBucket_nil, WFBucket_nil, WFBucket_nil⟩

theorem WFBucket_cleanBucket (l : List JStr) : WFBucket (cleanBucket l) := by
  refine ⟨dedupFirst_nodup _, ?_⟩
  intro s hs
  obtain ⟨hmap, hdec⟩ := List.mem_filter.mp (dedupFirst_subset hs)
  obtain ⟨x, _, rfl⟩ := List.mem_map.mp hmap
  exact ⟨of_decide_eq_true hdec, cleanEntityText_idem x⟩

theorem WFEntities_processNERResults (d : Option (List NEREntity)) :
    WFEntities (processNERResults d) := by
  cases d with
  | none => exact WFEntities_empty
  | some entities =>
    exact ⟨WFBucket_cleanBucket _, WFBucket_cleanBucket _, WFBucket_cleanBucket _,
      WFBucket_cleanBucket _, WFBucket_cleanBucket _⟩

theorem WFBucket_techFilter (t : JStr) :
    WFBucket ((techKeywords.map toJ).filter (fun k => jsIncludes (toLowerJ t) k)) := by
  refine ⟨List.Nodup.filter _ (by decide), ?_⟩
  intro s hs
  have hs2 : s ∈ techKeywords.map toJ := (List.mem_filter.mp hs).1
  have hall : ∀ s ∈ techKeywords.map toJ, 1 < s.length ∧ cleanEntityText s = s := by
    decide
  exact hall s hs2

theorem WFBucket_extractCompanies (t : JStr) :
    WFBucket (extractCompaniesByPattern t) := by
  refine ⟨dedupFirst_nodup _, ?_⟩
  intro s hs
  obtain ⟨hmap, _⟩ := List.mem_filter.mp (dedupFirst_subset hs)
  obtain ⟨cap, hcap, rfl⟩ := List.mem_map.mp hmap
  obtain ⟨hlen, halpha⟩ := scanCompanies_mem _ _ _ hcap
  rw [(alpha_clean halpha).2]
  exact ⟨by omega, (alpha_clean halpha).1⟩

theorem WFBucket_extractEdu (t : JStr) : WFBucket (extractEduByPattern t) := by
  refine ⟨dedupFirst_nodup _, ?_⟩
  intro s hs
  obtain ⟨hmap, _⟩ := List.mem_filter.mp (dedupFirst_subset hs)
  obtain ⟨cap, hcap, rfl⟩ := List.mem_map.mp hmap
  obtain ⟨hlen, halpha⟩ := scanEdu_mem _ _ _ hcap
  rw [(alpha_clean halpha).2]
  exact ⟨by omega, (alpha_clean halpha).1⟩

theorem WFEntities_fallback (text : Option JStr) :
    WFEntities (fallbackEntityExtraction text) := by
  cases text with
  | none => exact WFEntities_empty
  | some t =>
    simp only [fallbackEntityExtraction]
    split_ifs
    · exact WFEntities_empty
    · exact ⟨WFBucket_techFilter t, WFBucket_extractCompanies t, WFBucket_nil,
        WFBucket_extractEdu t, WFBucket_nil⟩

/-- C5: extractEntities always returns the five-bucket structure with
each bucket deduplicated and containing only cleaned strings longer than
one character (given that every cached entry was produced by
processNERResults, the only writer), and on invalid input or
inference-service failure it returns exactly the regex fallback result
for the same text instead of propagating the error. -/
theorem extractEntities_wellformed_and_fallback :
    ∀ (text : Option JStr) (cached : Option EntityResult)
      (api : Except String (Option (List NEREntity))),
      (∀ v, cached = some v → ∃ d, v = processNERResults d) →
      WFEntities (extractEntities text cached api) ∧
      ((textInvalid text = true ∨
        (cached = none ∧ ∀ d, api ≠ Except.ok (some d))) →
        extractEntities text cached api = fallbackEntityExtraction text) := by
  intro text cached api hc
  by_cases hinv : textInvalid text = true
  · unfold extractEntities
    rw [if_pos hinv]
    exact ⟨WFEntities_fallback text, fun _ => rfl⟩
  · unfold extractEntities
    rw [if_neg hinv]
    cases cached with
    | some v =>
      obtain ⟨d, rfl⟩ := hc v rfl
      refine ⟨WFEntities_processNERResults d, ?_⟩
      intro hcond
      rcases hcond with h1 | ⟨h2, _⟩
      · exact absurd h1 hinv
      · exact Option.noConfusion h2
    | none =>
      cases api with
      | error e => exact ⟨WFEntities_fallback text, fun _ => rfl⟩
      | ok odata =>
        cases odata with
        | none => exact ⟨WFEntities_fallback text, fun _ => rfl⟩
        | some d =>
          refine ⟨WFEntities_processNERResults (some d), ?_⟩
          intro hcond
          rcases hcond with h1 | ⟨_, h3⟩
          · exact absurd h1 hinv
          · exact absurd rfl (h3 d)

/-- C5 witness: the well-formedness hypothesis for an empty cache holds
vacuously, and on an inference error with a real text the function
returns the fallback result. -/
theorem extractEntities_wellformed_and_fallback_witness :
    (∀ v, (none : Option EntityResult) = some v → ∃ d, v = processNERResults d) ∧
    (WFEntities (extractEntities (some nerWitnessText) none (Except.error "timeout")) ∧
      ((textInvalid (some nerWitnessText) = true ∨
        ((none : Option EntityResult) = none ∧
          ∀ d, (Except.error "timeout" : Except String (Option (List NEREntity))) ≠
            Except.ok (some d))) →
        extractEntities (some nerWitnessText) none (Except.error "timeout") =
          fallbackEntityExtraction (some nerWitnessText))) := by
  have hc : ∀ v, (none : Option EntityResult) = some v → ∃ d, v = processNERResults d :=
    fun v h => Option.noConfusion h
  exact ⟨hc, extractEntities_wellformed_and_fallback (some nerWitnessText) none
    (Except.error "timeout") hc⟩

/-! ## C10 : processResume never rejects -/

/-- C10: whenever any fallible stage of processResume fails — text
extraction, the readability computation, or either awaited cache
write — the function resolves with the fixed fallback analysis (score
70, empty keywords and phrases, neutral sentiment, all-zero readability,
empty entity buckets, empty skill assessment) instead of propagating the
error; the function is total, so it never rejects. -/
theorem processResume_fallback_on_failure :
    ∀ (stopwords : List JStr) (extractRes : Except String JStr)
      (sentimentOf : JStr → Sentiment) (entitiesOf : JStr → EntityResult)
      (readabilityOf : JStr → Except String Readability) (phrasesOf : JStr → List JStr)
      (drawFor : Nat → Nat) (now : String) (dashWrite skillWrite : Except String Unit),
      ((∃ e, extractRes = Except.error e) ∨
        (∃ t e, extractRes = Except.ok t ∧ readabilityOf t = Except.error e) ∨
        (∃ e, dashWrite = Except.error e) ∨ (∃ e, skillWrite = Except.error e)) →
      processResume stopwords extractRes sentimentOf entitiesOf readabilityOf phrasesOf
        drawFor now dashWrite skillWrite = fallbackAnalysis ∧
      fallbackAnalysis.score = 70 ∧ fallbackAnalysis.keywords = [] ∧
      fallbackAnalysis.importantPhrases = [] ∧
      fallbackAnalysis.sentiment = neutralSentiment ∧
      fallbackAnalysis.readability = zeroReadability ∧
      fallbackAnalysis.entities = emptyEntities ∧
      fallbackAnalysis.skillAssessment = [] := by
  intro sw ext sof eof rof pof drawFor now dw skw h
  refine ⟨?_, rfl, rfl, rfl, rfl, rfl, rfl, rfl⟩
  rcases h with ⟨e, rfl⟩ | ⟨t, e, hext, hrof⟩ | ⟨e, hdw⟩ | ⟨e, hskw⟩
  · rfl
  · subst hext
    simp only [processResume, processResumeBody, hrof]
  · cases ext with
    | error e2 => rfl
    | ok t =>
      cases hrt : rof t with
      | error e2 =>
        simp only [processResume, processResumeBody, hrt]
      | ok rb =>
        subst hdw
        simp only [processResume, processResumeBody, hrt]
  · cases ext with
    | error e2 => rfl
    | ok t =>
      cases hrt : rof t with
      | error e2 =>
        simp only [processResume, processResumeBody, hrt]
      | ok rb =>
        subst hskw
        cases dw with
        | error e3 => simp only [processResume, processResumeBody, hrt]
        | ok u => simp only [processResume, processResumeBody, hrt]

/-- C10 witness: with every stage succeeding except the dashboard cache
write, processResume returns the fallback analysis. -/
theorem processResume_fallback_on_failure_witness :
    ((∃ e, (Except.ok (toJ "hi") : Except String JStr) = Except.error e) ∨
      (∃ t e, (Except.ok (toJ "hi") : Except String JStr) = Except.ok t ∧
        (fun _ : JStr => (Except.ok zeroReadability : Except String Readability)) t =
          Except.error e) ∨
      (∃ e, (Except.error "redis down" : Except String Unit) = Except.error e) ∨
      (∃ e, (Except.ok () : Except String Unit) = Except.error e)) ∧
    processResume [] (Except.ok (toJ "hi")) (fun _ => neutralSentiment)
      (fun _ => emptyEntities) (fun _ => Except.ok zeroReadability) (fun _ => [])
      (fun _ => 0) "T" (Except.error "redis down") (Except.ok ()) = fallbackAnalysis ∧
    fallbackAnalysis.score = 70 ∧ fallbackAnalysis.keywords = [] ∧
    fallbackAnalysis.importantPhrases = [] ∧
    fallbackAnalysis.sentiment = neutralSentiment ∧
    fallbackAnalysis.readability = zeroReadability ∧
    fallbackAnalysis.entities = emptyEntities ∧
    fallbackAnalysis.skillAssessment = [] := by
  have hcond : ((∃ e, (Except.ok (toJ "hi") : Except String JStr) = Except.error e) ∨
      (∃ t e, (Except.ok (toJ "hi") : Except String JStr) = Except.ok t ∧
        (fun _ : JStr => (Except.ok zeroReadability : Except String Readability)) t =
          Except.error e) ∨
      (∃ e, (Except.error "redis down" : Except String Unit) = Except.error e) ∨
      (∃ e, (Except.ok () : Except String Unit) = Except.error e)) :=
    Or.inr (Or.inr (Or.inl ⟨"redis down", rfl⟩))
  exact ⟨hcond, processResume_fallback_on_failure [] (Except.ok (toJ "hi"))
    (fun _ => neutralSentiment) (fun _ => emptyEntities) (fun _ => Except.ok zeroReadability)
    (fun _ => []) (fun _ => 0) "T" (Except.error "redis down") (Except.ok ()) hcond⟩

end SkillForage
